import Mathlib

/-!
Shallow embedding of the goply reconciler (src/inventory.go, src/reconciler.go,
src/unnamed/part_000 set helpers) in Lean 4.

External collaborators (the Kubernetes resource manager, the YAML object
decoder, the normalizer and the cli-utils object-metadata helpers) are modelled
as oracles carried in an `Env` value: each reconcile/delete call is a pure
function of the oracle outcomes, returning the Go function's results together
with the ordered trace of resource-manager calls it issued.

Durations are modelled the way Go's `time.Duration` represents them: an
integer count of nanoseconds.
-/

/-- Go `time.Second` as a nanosecond count. -/
def Second : Nat := 1000000000

/-- Go `time.Minute` as a nanosecond count. -/
def Minute : Nat := 60 * Second

/-- `DefaultTimeout = 5 * time.Minute` from src/reconciler.go. -/
def DefaultTimeout : Nat := 5 * Minute

/-- Model of `unstructured.Unstructured` restricted to the fields this program
reads and writes: group/version/kind, namespace and name.  (`Namespace` is
capitalised as in the Go getters; the lowercase word is a Lean keyword.) -/
structure Unstructured where
  Group : String
  Version : String
  Kind : String
  Namespace : String
  Name : String
deriving DecidableEq, Repr

/-- Model of the external predicate `ssautils.IsClusterDefinition`: true
exactly for cluster-scoped definitional resources, i.e. a namespace or a
custom-resource-definition (spec §4.1). -/
def IsClusterDefinition (obj : Unstructured) : Bool :=
  obj.Kind == "Namespace" || obj.Kind == "CustomResourceDefinition"

/-- Model of cli-utils `schema.GroupKind`. -/
structure GroupKind where
  Group : String
  Kind : String
deriving DecidableEq, Repr

/-- Model of cli-utils `object.ObjMetadata`: namespace, name and group/kind —
the identity used for pruning set operations (spec §3): version is absent. -/
structure ObjMetadata where
  Namespace : String
  Name : String
  GroupKind : GroupKind
deriving DecidableEq, Repr

/-- Model of cli-utils `ObjMetadata.String()`: the underscore-separated join
of namespace, name, group and kind used as the set key in `ItemsToRemove`. -/
def ObjMetadata.str (o : ObjMetadata) : String :=
  o.Namespace ++ "_" ++ o.Name ++ "_" ++ o.GroupKind.Group ++ "_" ++ o.GroupKind.Kind

/-- `InventoryItem` from src/inventory.go: an embedded `ObjMetadata` plus the
observed `GroupVersion`. -/
structure InventoryItem where
  ObjMetadata : ObjMetadata
  GroupVersion : String
deriving DecidableEq, Repr

/-- `InventoryItem.ID()` from src/inventory.go: `i.ObjMetadata.String()`. -/
def InventoryItem.ID (i : InventoryItem) : String :=
  i.ObjMetadata.str

/-- `Inventory` from src/inventory.go: an ordered list of items. -/
structure Inventory where
  Items : List InventoryItem
deriving DecidableEq, Repr

/-- The generic map-backed `set` of src/unnamed/part_000, specialised to the
string keys the program uses; membership in the Go map is membership among the
added elements. -/
structure StrSet where
  data : List String
deriving DecidableEq, Repr

/-- `newSet(items...)` from src/unnamed/part_000. -/
def newSet (items : List String) : StrSet :=
  ⟨items⟩

/-- `set.Contains` from src/unnamed/part_000. -/
def StrSet.Contains (s : StrSet) (item : String) : Bool :=
  s.data.contains item

/-- The `unstructured` deletion stub built inside the `ItemsToRemove` loop
(src/inventory.go lines 21-28): group/kind/version from the item's metadata
and recorded version, plus name and namespace. -/
def InventoryItem.toObj (i : InventoryItem) : Unstructured :=
  { Group := i.ObjMetadata.GroupKind.Group
    Version := i.GroupVersion
    Kind := i.ObjMetadata.GroupKind.Kind
    Namespace := i.ObjMetadata.Namespace
    Name := i.ObjMetadata.Name }

/-- The `for` loop of `ItemsToRemove` (src/inventory.go lines 19-32): walk the
items in order, emitting a deletion stub for each item whose ID is not in the
new inventory's ID set. -/
def removeLoop (s : StrSet) : List InventoryItem → List Unstructured
  | [] => []
  | i :: rest =>
    if s.Contains i.ID then removeLoop s rest
    else i.toObj :: removeLoop s rest

/-- `Inventory.ItemsToRemove` from src/inventory.go: build a set of the new
inventory's IDs, then emit every item of `self` absent from that set. -/
def Inventory.ItemsToRemove (self newInv : Inventory) : List Unstructured :=
  removeLoop (newSet (newInv.Items.map InventoryItem.ID)) self.Items

/-- `toInventoryItem` from src/inventory.go: identity plus the observed API
version (`object.UnstructuredToObjMetadata` keeps namespace, name, group and
kind; the version is recorded separately). -/
def toInventoryItem (obj : Unstructured) : InventoryItem :=
  { ObjMetadata :=
      { Namespace := obj.Namespace
        Name := obj.Name
        GroupKind := { Group := obj.Group, Kind := obj.Kind } }
    GroupVersion := obj.Version }

/-- The identity fields a deletion stub carries, for relating emitted objects
back to inventory identities. -/
def Unstructured.metaOf (u : Unstructured) : ObjMetadata :=
  { Namespace := u.Namespace
    Name := u.Name
    GroupKind := { Group := u.Group, Kind := u.Kind } }

/-- Model of `ssa.WaitOptions` (interval and timeout, in nanoseconds). -/
structure WaitOptions where
  Interval : Nat
  Timeout : Nat
deriving DecidableEq, Repr

/-- The foreground propagation policy passed to `DeleteAll` in
src/reconciler.go line 216. -/
def DeletePropagationForeground : String := "Foreground"

/-- One call issued to the external resource manager, in the order the
reconciler makes them. -/
inductive MgrCall
  | ApplyAll (objects : List Unstructured)
  | Wait (objects : List Unstructured) (opts : WaitOptions)
  | DeleteAll (objects : List Unstructured) (propagationPolicy : String)
  | WaitForTermination (objects : List Unstructured) (opts : WaitOptions)
deriving DecidableEq, Repr

/-- True exactly for a `DeleteAll` resource-manager call. -/
def MgrCall.isDeleteAll : MgrCall → Bool
  | .DeleteAll _ _ => true
  | _ => false

/-- True exactly for a `WaitForTermination` resource-manager call. -/
def MgrCall.isWaitForTermination : MgrCall → Bool
  | .WaitForTermination _ _ => true
  | _ => false

/-- Oracle for the external `ssa.ResourceManager`: the error outcome (`none`
for success) of each operation the reconciler may invoke.  `Wait` and
`WaitForTermination` outcomes are booleans because src/reconciler.go discards
their error values (replacing the first with its own message and dropping the
second). -/
structure ResourceManager where
  ApplyAllErr : List Unstructured → Option String
  WaitOk : List Unstructured → WaitOptions → Bool
  DeleteAllErr : List Unstructured → Option String
  WaitForTerminationOk : List Unstructured → WaitOptions → Bool

/-- Oracle environment for one call: the outcome of decoding the declaration
text (`ssautils.ReadObjects`), the in-place per-object default-setting of
`normalize.UnstructuredList` together with its error outcome, and the resource
manager. -/
structure Env where
  readObjects : Except String (List Unstructured)
  normalizeObj : Unstructured → Unstructured
  normalizeErr : List Unstructured → Option String
  mgr : ResourceManager

/-- `ApplyOpts` from src/reconciler.go. -/
structure ApplyOpts where
  WaitTimeout : Option Nat
  SkipWait : Bool
deriving DecidableEq, Repr

/-- `DeleteOpts` from src/reconciler.go. -/
structure DeleteOpts where
  WaitTimeout : Option Nat
  SkipWait : Bool
deriving DecidableEq, Repr

/-- The pair a Go `(Inventory, error)` return denotes, together with the trace
of resource-manager calls the invocation issued. -/
structure ReconcileResult where
  inventory : Inventory
  err : Option String
  calls : List MgrCall
deriving DecidableEq, Repr

/-- `GetObjects` from src/reconciler.go: decode the yaml, wrapping a decoder
failure. -/
def GetObjects (env : Env) : Except String (List Unstructured) :=
  match env.readObjects with
  | .error e => .error ("error decoding yaml to unstructured: " ++ e)
  | .ok allObjects => .ok allObjects

/-- The classification loop of `getResourceStages` (src/reconciler.go lines
93-99): append each object to stage one when `IsClusterDefinition` holds,
otherwise to stage two. -/
def stageLoop : List Unstructured → List Unstructured × List Unstructured
  | [] => ([], [])
  | obj :: rest =>
    let s := stageLoop rest
    if IsClusterDefinition obj then (obj :: s.1, s.2) else (s.1, obj :: s.2)

/-- `getResourceStages` from src/reconciler.go: decode (wrapping the error a
second time), normalize defaults, then classify into the two stages. -/
def getResourceStages (env : Env) :
    Except String (List Unstructured × List Unstructured) :=
  match GetObjects env with
  | .error e => .error ("error decoding yaml to unstructured: " ++ e)
  | .ok allObjects =>
    match env.normalizeErr allObjects with
    | some e => .error ("error setting defaults: " ++ e)
    | none => .ok (stageLoop (allObjects.map env.normalizeObj))

/-- The lowercase `delete` method of src/reconciler.go: default the timeout,
issue one batch `DeleteAll`, and — unless skip-wait — call
`WaitForTermination`; the Go source assigns that call's error to `err` and
then executes `return nil`, so the termination outcome never reaches the
caller. -/
def Reconciler.delete (env : Env) (items : List Unstructured)
    (opts : DeleteOpts) : Option String × List MgrCall :=
  let timeout := opts.WaitTimeout.getD DefaultTimeout
  match env.mgr.DeleteAllErr items with
  | some e => (some ("error during deletion: " ++ e), [MgrCall.DeleteAll items DeletePropagationForeground])
  | none =>
    if opts.SkipWait then
      (none, [MgrCall.DeleteAll items DeletePropagationForeground])
    else
      (none,
        [MgrCall.DeleteAll items DeletePropagationForeground,
         MgrCall.WaitForTermination items ⟨2 * Second, timeout⟩])

/-- `removeItems` from src/reconciler.go: compute the prune set; if empty do
nothing, otherwise delete it with the apply options' timeout and skip-wait. -/
def Reconciler.removeItems (env : Env)
    (previousInventory newInventory : Inventory) (opts : ApplyOpts) :
    Option String × List MgrCall :=
  let toRemove := previousInventory.ItemsToRemove newInventory
  if toRemove.length == 0 then (none, [])
  else Reconciler.delete env toRemove ⟨opts.WaitTimeout, opts.SkipWait⟩

/-- The pruning tail of `Reconcile` (src/reconciler.go lines 191-197): prune
only when a previous inventory was supplied, wrapping a prune failure, then
return the new inventory. -/
def finishReconcile (env : Env) (opts : ApplyOpts)
    (previousInventory : Option Inventory) (inventory : Inventory)
    (callsSoFar : List MgrCall) : ReconcileResult :=
  match previousInventory with
  | none => ⟨inventory, none, callsSoFar⟩
  | some prev =>
    match Reconciler.removeItems env prev inventory opts with
    | (some e, pruneCalls) =>
      ⟨⟨[]⟩, some ("error pruning items: " ++ e), callsSoFar ++ pruneCalls⟩
    | (none, pruneCalls) => ⟨inventory, none, callsSoFar ++ pruneCalls⟩

/-- `Reconcile` from src/reconciler.go: default the timeout, stage the
resources, build the inventory eagerly, apply stage one, always wait for it
with the fixed 2s/30s options, apply stage two, wait for it with the caller
timeout unless skip-wait, then prune against the previous inventory.  Every
failure returns the empty inventory with a wrapped (or replaced) error. -/
def Reconciler.Reconcile (env : Env) (opts0 : ApplyOpts)
    (previousInventory : Option Inventory) : ReconcileResult :=
  let opts : ApplyOpts :=
    { opts0 with WaitTimeout := some (opts0.WaitTimeout.getD DefaultTimeout) }
  match getResourceStages env with
  | .error e => ⟨⟨[]⟩, some ("error getting resource stages: " ++ e), []⟩
  | .ok (stageOne, stageTwo) =>
    let inventory : Inventory :=
      ⟨stageOne.map toInventoryItem ++ stageTwo.map toInventoryItem⟩
    let c1 := MgrCall.ApplyAll stageOne
    match env.mgr.ApplyAllErr stageOne with
    | some e => ⟨⟨[]⟩, some ("error applying stage one resources: " ++ e), [c1]⟩
    | none =>
      let w1 : WaitOptions := ⟨2 * Second, 30 * Second⟩
      let c2 := MgrCall.Wait stageOne w1
      if env.mgr.WaitOk stageOne w1 = false then
        ⟨⟨[]⟩, some "timed out waiting for objects to reconcile", [c1, c2]⟩
      else
        let c3 := MgrCall.ApplyAll stageTwo
        match env.mgr.ApplyAllErr stageTwo with
        | some e =>
          ⟨⟨[]⟩, some ("error applying stage two resources: " ++ e), [c1, c2, c3]⟩
        | none =>
          if opts.SkipWait then
            finishReconcile env opts previousInventory inventory [c1, c2, c3]
          else
            let w2 : WaitOptions := ⟨2 * Second, opts.WaitTimeout.getD DefaultTimeout⟩
            let c4 := MgrCall.Wait stageTwo w2
            if env.mgr.WaitOk stageTwo w2 = false then
              ⟨⟨[]⟩, some "timed out waiting for objects to reconcile", [c1, c2, c3, c4]⟩
            else
              finishReconcile env opts previousInventory inventory [c1, c2, c3, c4]

/-- `Apply` from src/reconciler.go: reconcile with no previous inventory. -/
def Reconciler.Apply (env : Env) (opts : ApplyOpts) : ReconcileResult :=
  Reconciler.Reconcile env opts none

/-- The public `Delete` entry point of src/reconciler.go: decode (single
wrap) and hand everything to the lowercase `delete`. -/
def Reconciler.Delete (env : Env) (opts : DeleteOpts) :
    Option String × List MgrCall :=
  match GetObjects env with
  | .error e => (some ("error decoding yaml to unstructured: " ++ e), [])
  | .ok allObjects => Reconciler.delete env allObjects opts

theorem removeLoop_eq_filterMap (s : StrSet) (items : List InventoryItem) :
    removeLoop s items =
      (items.filter (fun i => !(s.Contains i.ID))).map InventoryItem.toObj := by
  induction items with
  | nil => rfl
  | cons i rest ih =>
    by_cases h : s.Contains i.ID
    · simp [removeLoop, h, ih]
    · simp [removeLoop, h, ih, List.filter_cons]

theorem itemsToRemove_eq_filter (A B : Inventory) :
    A.ItemsToRemove B =
      (A.Items.filter
        (fun i => !((B.Items.map InventoryItem.ID).contains i.ID))).map
        InventoryItem.toObj := by
  simp [Inventory.ItemsToRemove, removeLoop_eq_filterMap, newSet, StrSet.Contains]

theorem stageLoop_eq_filter (objs : List Unstructured) :
    stageLoop objs =
      (objs.filter IsClusterDefinition,
       objs.filter (fun o => !IsClusterDefinition o)) := by
  induction objs with
  | nil => rfl
  | cons o rest ih =>
    by_cases h : IsClusterDefinition o <;>
      simp [stageLoop, h, ih, List.filter_cons]

theorem reconcile_none_hasNoDeleteAll (env : Env) (opts : ApplyOpts) :
    (Reconciler.Reconcile env opts none).calls.all
      (fun c => !c.isDeleteAll) = true := by
  simp only [Reconciler.Reconcile, finishReconcile]
  split
  · simp
  · split
    · simp [MgrCall.isDeleteAll]
    · split
      · simp [MgrCall.isDeleteAll]
      · split
        · simp [MgrCall.isDeleteAll]
        · split
          · simp [MgrCall.isDeleteAll]
          · split
            · simp [MgrCall.isDeleteAll]
            · simp [MgrCall.isDeleteAll]

/-- Fixture: a namespace object (stage one). -/
def nsObj : Unstructured :=
  { Group := "", Version := "v1", Kind := "Namespace",
    Namespace := "", Name := "goply-test" }

/-- Fixture: a config-map object X (stage two). -/
def cmX : Unstructured :=
  { Group := "", Version := "v1", Kind := "ConfigMap",
    Namespace := "goply-test", Name := "config-one" }

/-- Fixture: a config-map object Y (stage two). -/
def cmY : Unstructured :=
  { Group := "", Version := "v1", Kind := "ConfigMap",
    Namespace := "goply-test", Name := "config-two" }

/-- Fixture: a resource manager for which every operation succeeds. -/
def mgrAllOk : ResourceManager :=
  { ApplyAllErr := fun _ => none
    WaitOk := fun _ _ => true
    DeleteAllErr := fun _ => none
    WaitForTerminationOk := fun _ _ => true }

/-- Fixture: a resource manager whose termination wait always fails (times
out) while everything else succeeds. -/
def mgrTermFail : ResourceManager :=
  { ApplyAllErr := fun _ => none
    WaitOk := fun _ _ => true
    DeleteAllErr := fun _ => none
    WaitForTerminationOk := fun _ _ => false }

/-- Fixture: an environment whose declaration text decodes to `objs`, with a
no-op normalizer and an all-succeeding manager. -/
def envOf (objs : List Unstructured) : Env :=
  { readObjects := .ok objs
    normalizeObj := id
    normalizeErr := fun _ => none
    mgr := mgrAllOk }

/-- Fixture: like `envOf` but the manager's termination wait fails. -/
def envTermFail (objs : List Unstructured) : Env :=
  { readObjects := .ok objs
    normalizeObj := id
    normalizeErr := fun _ => none
    mgr := mgrTermFail }

/-- C1: the claim says that with SkipWait false, a failing `WaitForTermination`
makes `delete` (hence `Delete`) return a non-nil error.  The code contradicts
it: src/reconciler.go assigns the termination-wait error to `err` (line 223)
and then executes `return nil` (line 229), so the failure is swallowed.  Here
the declaration decodes to the single resource `cmX`, the manager's
termination wait fails, yet `Delete` returns `none` (success) after having
issued the termination wait. -/
theorem C1_terminationFailure_swallowed :
    mgrTermFail.WaitForTerminationOk [cmX] ⟨2 * Second, DefaultTimeout⟩ = false ∧
    Reconciler.Delete (envTermFail [cmX]) ⟨none, false⟩ =
      (none,
        [MgrCall.DeleteAll [cmX] DeletePropagationForeground,
         MgrCall.WaitForTermination [cmX] ⟨2 * Second, DefaultTimeout⟩]) := by
  constructor
  · rfl
  · rfl

/-- C2: `A.ItemsToRemove B` is the right-anti-join of A against B keyed on
identity: it emits, in A's order, exactly the deletion stubs of A's items
whose ID is absent from B's ID set; it is empty when the two ID sets agree;
it is all of A when B is empty; and every emitted object arises from an item
of A whose ID is not in B. -/
theorem C2_itemsToRemove_antiJoin (A B : Inventory) :
    (A.ItemsToRemove B =
      (A.Items.filter
        (fun i => !((B.Items.map InventoryItem.ID).contains i.ID))).map
        InventoryItem.toObj) ∧
    ((∀ s : String,
        s ∈ A.Items.map InventoryItem.ID ↔ s ∈ B.Items.map InventoryItem.ID) →
      A.ItemsToRemove B = []) ∧
    (B.Items = [] → A.ItemsToRemove B = A.Items.map InventoryItem.toObj) ∧
    (∀ u ∈ A.ItemsToRemove B, ∃ i ∈ A.Items,
      u = i.toObj ∧ ((B.Items.map InventoryItem.ID).contains i.ID) = false) := by
  refine ⟨itemsToRemove_eq_filter A B, ?_, ?_, ?_⟩
  · intro hsame
    rw [itemsToRemove_eq_filter]
    have : A.Items.filter
        (fun i => !((B.Items.map InventoryItem.ID).contains i.ID)) = [] := by
      rw [List.filter_eq_nil_iff]
      intro i hi
      have hmem : i.ID ∈ B.Items.map InventoryItem.ID :=
        (hsame i.ID).mp (List.mem_map_of_mem InventoryItem.ID hi)
      simp [hmem]
    rw [this, List.map_nil]
  · intro hB
    rw [itemsToRemove_eq_filter, hB]
    simp
  · intro u hu
    rw [itemsToRemove_eq_filter] at hu
    rcases List.mem_map.mp hu with ⟨i, hifil, hieq⟩
    rcases List.mem_filter.mp hifil with ⟨hiA, hpred⟩
    refine ⟨i, hiA, hieq.symm, ?_⟩
    simpa using hpred

/-- Concrete inventory fixtures for the inventory-diff witnesses. -/
def invXY : Inventory := ⟨[toInventoryItem cmX, toInventoryItem cmY]⟩

/-- Concrete single-item inventory fixture. -/
def invX : Inventory := ⟨[toInventoryItem cmX]⟩

/-- Concrete single-item inventory fixture with a different identity. -/
def invY : Inventory := ⟨[toInventoryItem cmY]⟩

/-- Witness for C2 at concrete inventories: the same-ID-set hypothesis and the
empty-B hypothesis are discharged at `invXY`. -/
theorem C2_itemsToRemove_antiJoin_witness :
    Inventory.ItemsToRemove invXY invXY = [] ∧
    Inventory.ItemsToRemove invXY ⟨[]⟩ =
      invXY.Items.map InventoryItem.toObj := by
  constructor
  · exact (C2_itemsToRemove_antiJoin invXY invXY).2.1 (fun s => Iff.rfl)
  · exact (C2_itemsToRemove_antiJoin invXY ⟨[]⟩).2.2.1 rfl

/-- C3: the identity used by the pruning set-difference is the
(group, kind, namespace, name) metadata only — two items agreeing on that
metadata (in particular, differing solely in their observed API version) have
equal IDs — and consequently no emitted deletion stub carries an identity that
occurs (under any version) in the new inventory. -/
theorem C3_identity_ignores_version :
    (∀ i j : InventoryItem, i.ObjMetadata = j.ObjMetadata → i.ID = j.ID) ∧
    (∀ A B : Inventory, ∀ u ∈ A.ItemsToRemove B, ∀ j ∈ B.Items,
      u.metaOf ≠ j.ObjMetadata) := by
  constructor
  · intro i j h
    simp [InventoryItem.ID, h]
  · intro A B u hu j hj heq
    rw [itemsToRemove_eq_filter] at hu
    rcases List.mem_map.mp hu with ⟨i, hifil, hieq⟩
    rcases List.mem_filter.mp hifil with ⟨_, hpred⟩
    have hmeta : i.ObjMetadata = j.ObjMetadata := by
      have : u.metaOf = i.ObjMetadata := by
        rw [← hieq]
        cases i
        rfl
      rw [← this, heq]
    have hid : j.ID = i.ID := by
      simp [InventoryItem.ID, hmeta]
    have hmem : i.ID ∈ B.Items.map InventoryItem.ID := by
      rw [← hid]
      exact List.mem_map_of_mem InventoryItem.ID hj
    simp [hmem] at hpred

/-- Fixture: inventory item with version v1. -/
def itemVer1 : InventoryItem :=
  { ObjMetadata :=
      { Namespace := "goply-test", Name := "config-one"
        GroupKind := { Group := "", Kind := "ConfigMap" } }
    GroupVersion := "v1" }

/-- Fixture: the same identity as `itemVer1` with version v2. -/
def itemVer2 : InventoryItem :=
  { ObjMetadata :=
      { Namespace := "goply-test", Name := "config-one"
        GroupKind := { Group := "", Kind := "ConfigMap" } }
    GroupVersion := "v2" }

/-- Witness for C3 at concrete items: two items differing solely in version
share an ID, and a concrete emitted stub's identity differs from every
identity of the new inventory. -/
theorem C3_identity_ignores_version_witness :
    itemVer1.ID = itemVer2.ID ∧
    (toInventoryItem cmX).toObj.metaOf ≠ (toInventoryItem cmY).ObjMetadata := by
  constructor
  · exact C3_identity_ignores_version.1 itemVer1 itemVer2 rfl
  · exact C3_identity_ignores_version.2 invX invY (toInventoryItem cmX).toObj
      (by decide) (toInventoryItem cmY) (by decide)

/-- C10: `Apply(yaml, opts)` is definitionally `Reconcile(yaml, opts, nil)` —
identical inventory, error and resource-manager call sequence — and, having no
previous inventory, it never issues a `DeleteAll` (no pruning phase). -/
theorem C10_apply_is_reconcile_without_previous (env : Env) (opts : ApplyOpts) :
    Reconciler.Apply env opts = Reconciler.Reconcile env opts none ∧
    (Reconciler.Apply env opts).calls.all (fun c => !c.isDeleteAll) = true := by
  exact ⟨rfl, reconcile_none_hasNoDeleteAll env opts⟩

theorem removeItems_shape (env : Env) (p inv : Inventory) (opts : ApplyOpts) :
    (Reconciler.removeItems env p inv opts = (none, []) ∧
      p.ItemsToRemove inv = []) ∨
    (p.ItemsToRemove inv ≠ [] ∧
      ((∃ e, env.mgr.DeleteAllErr (p.ItemsToRemove inv) = some e ∧
        Reconciler.removeItems env p inv opts =
          (some ("error during deletion: " ++ e),
           [MgrCall.DeleteAll (p.ItemsToRemove inv)
              DeletePropagationForeground])) ∨
       (env.mgr.DeleteAllErr (p.ItemsToRemove inv) = none ∧
        ((opts.SkipWait = true ∧
          Reconciler.removeItems env p inv opts =
            (none, [MgrCall.DeleteAll (p.ItemsToRemove inv)
                      DeletePropagationForeground])) ∨
         (opts.SkipWait = false ∧
          Reconciler.removeItems env p inv opts =
            (none, [MgrCall.DeleteAll (p.ItemsToRemove inv)
                      DeletePropagationForeground,
                    MgrCall.WaitForTermination (p.ItemsToRemove inv)
                      ⟨2 * Second, opts.WaitTimeout.getD DefaultTimeout⟩])))))) := by
  by_cases hlen : p.ItemsToRemove inv = []
  · left
    constructor
    · simp [Reconciler.removeItems, hlen]
    · exact hlen
  · right
    refine ⟨hlen, ?_⟩
    cases hdel : env.mgr.DeleteAllErr (p.ItemsToRemove inv) with
    | some e =>
      left
      refine ⟨e, rfl, ?_⟩
      have hlen' : ((p.ItemsToRemove inv).length == 0) = false := by
        simp [List.length_eq_zero, hlen]
      simp [Reconciler.removeItems, Reconciler.delete, hlen', hdel]
    | none =>
      right
      refine ⟨rfl, ?_⟩
      have hlen' : ((p.ItemsToRemove inv).length == 0) = false := by
        simp [List.length_eq_zero, hlen]
      by_cases hsw : opts.SkipWait
      · left
        refine ⟨hsw, ?_⟩
        simp [Reconciler.removeItems, Reconciler.delete, hlen', hdel, hsw]
      · right
        refine ⟨by simpa using hsw, ?_⟩
        simp [Reconciler.removeItems, Reconciler.delete, hlen', hdel, hsw]

theorem reconcile_master (env : Env) (opts : ApplyOpts) (prev : Option Inventory)
    (s1 s2 : List Unstructured)
    (hst : getResourceStages env = .ok (s1, s2)) :
    (∃ e, env.mgr.ApplyAllErr s1 = some e ∧
       Reconciler.Reconcile env opts prev =
         ⟨⟨[]⟩, some ("error applying stage one resources: " ++ e),
           [MgrCall.ApplyAll s1]⟩) ∨
    (env.mgr.ApplyAllErr s1 = none ∧
     env.mgr.WaitOk s1 ⟨2 * Second, 30 * Second⟩ = false ∧
       Reconciler.Reconcile env opts prev =
         ⟨⟨[]⟩, some "timed out waiting for objects to reconcile",
           [MgrCall.ApplyAll s1,
            MgrCall.Wait s1 ⟨2 * Second, 30 * Second⟩]⟩) ∨
    (env.mgr.ApplyAllErr s1 = none ∧
     env.mgr.WaitOk s1 ⟨2 * Second, 30 * Second⟩ = true ∧
     (∃ e, env.mgr.ApplyAllErr s2 = some e ∧
       Reconciler.Reconcile env opts prev =
         ⟨⟨[]⟩, some ("error applying stage two resources: " ++ e),
           [MgrCall.ApplyAll s1,
            MgrCall.Wait s1 ⟨2 * Second, 30 * Second⟩,
            MgrCall.ApplyAll s2]⟩)) ∨
    (env.mgr.ApplyAllErr s1 = none ∧
     env.mgr.WaitOk s1 ⟨2 * Second, 30 * Second⟩ = true ∧
     env.mgr.ApplyAllErr s2 = none ∧
     opts.SkipWait = false ∧
     env.mgr.WaitOk s2 ⟨2 * Second, opts.WaitTimeout.getD DefaultTimeout⟩ = false ∧
       Reconciler.Reconcile env opts prev =
         ⟨⟨[]⟩, some "timed out waiting for objects to reconcile",
           [MgrCall.ApplyAll s1,
            MgrCall.Wait s1 ⟨2 * Second, 30 * Second⟩,
            MgrCall.ApplyAll s2,
            MgrCall.Wait s2 ⟨2 * Second, opts.WaitTimeout.getD DefaultTimeout⟩]⟩) ∨
    (env.mgr.ApplyAllErr s1 = none ∧
     env.mgr.WaitOk s1 ⟨2 * Second, 30 * Second⟩ = true ∧
     env.mgr.ApplyAllErr s2 = none ∧
     ∃ pre : List MgrCall,
       ((opts.SkipWait = true ∧
          pre = [MgrCall.ApplyAll s1,
                 MgrCall.Wait s1 ⟨2 * Second, 30 * Second⟩,
                 MgrCall.ApplyAll s2]) ∨
        (opts.SkipWait = false ∧
         env.mgr.WaitOk s2 ⟨2 * Second, opts.WaitTimeout.getD DefaultTimeout⟩ = true ∧
          pre = [MgrCall.ApplyAll s1,
                 MgrCall.Wait s1 ⟨2 * Second, 30 * Second⟩,
                 MgrCall.ApplyAll s2,
                 MgrCall.Wait s2
                   ⟨2 * Second, opts.WaitTimeout.getD DefaultTimeout⟩])) ∧
       ((prev = none ∧
          Reconciler.Reconcile env opts prev =
            ⟨⟨s1.map toInventoryItem ++ s2.map toInventoryItem⟩, none, pre⟩) ∨
        (∃ p perr pcalls, prev = some p ∧
          Reconciler.removeItems env p
            ⟨s1.map toInventoryItem ++ s2.map toInventoryItem⟩
            { opts with WaitTimeout := some (opts.WaitTimeout.getD DefaultTimeout) } =
            (perr, pcalls) ∧
          ((perr = none ∧
            Reconciler.Reconcile env opts prev =
              ⟨⟨s1.map toInventoryItem ++ s2.map toInventoryItem⟩, none,
                pre ++ pcalls⟩) ∨
           (∃ e, perr = some e ∧
            Reconciler.Reconcile env opts prev =
              ⟨⟨[]⟩, some ("error pruning items: " ++ e), pre ++ pcalls⟩))))) := by
  cases h1 : env.mgr.ApplyAllErr s1 with
  | some e =>
    refine Or.inl ⟨e, rfl, ?_⟩
    simp [Reconciler.Reconcile, hst, h1]
  | none =>
    cases hw1 : env.mgr.WaitOk s1 ⟨2 * Second, 30 * Second⟩ with
    | false =>
      refine Or.inr (Or.inl ⟨rfl, rfl, ?_⟩)
      simp [Reconciler.Reconcile, hst, h1, hw1]
    | true =>
      cases h2 : env.mgr.ApplyAllErr s2 with
      | some e =>
        refine Or.inr (Or.inr (Or.inl ⟨rfl, rfl, e, rfl, ?_⟩))
        simp [Reconciler.Reconcile, hst, h1, hw1, h2]
      | none =>
        cases hsw : opts.SkipWait with
        | true =>
          refine Or.inr (Or.inr (Or.inr (Or.inr ⟨rfl, rfl, rfl, ?_⟩)))
          refine ⟨[MgrCall.ApplyAll s1,
                   MgrCall.Wait s1 ⟨2 * Second, 30 * Second⟩,
                   MgrCall.ApplyAll s2], Or.inl ⟨rfl, rfl⟩, ?_⟩
          cases prev with
          | none =>
            refine Or.inl ⟨rfl, ?_⟩
            simp [Reconciler.Reconcile, hst, h1, hw1, h2, hsw, finishReconcile]
          | some p =>
            cases hrm : Reconciler.removeItems env p
                ⟨s1.map toInventoryItem ++ s2.map toInventoryItem⟩
                ⟨some (opts.WaitTimeout.getD DefaultTimeout), true⟩ with
            | mk perr pcalls =>
              refine Or.inr ⟨p, perr, pcalls, rfl, ?_, ?_⟩
              · exact hsw ▸ hrm
              · cases perr with
                | none =>
                  refine Or.inl ⟨rfl, ?_⟩
                  simp [Reconciler.Reconcile, hst, h1, hw1, h2, hsw,
                    finishReconcile, hrm]
                | some e =>
                  refine Or.inr ⟨e, rfl, ?_⟩
                  simp [Reconciler.Reconcile, hst, h1, hw1, h2, hsw,
                    finishReconcile, hrm]
        | false =>
          cases hw2 : env.mgr.WaitOk s2
              ⟨2 * Second, opts.WaitTimeout.getD DefaultTimeout⟩ with
          | false =>
            refine Or.inr (Or.inr (Or.inr (Or.inl
              ⟨rfl, rfl, rfl, rfl, rfl, ?_⟩)))
            simp [Reconciler.Reconcile, hst, h1, hw1, h2, hsw, hw2]
          | true =>
            refine Or.inr (Or.inr (Or.inr (Or.inr ⟨rfl, rfl, rfl, ?_⟩)))
            refine ⟨[MgrCall.ApplyAll s1,
                     MgrCall.Wait s1 ⟨2 * Second, 30 * Second⟩,
                     MgrCall.ApplyAll s2,
                     MgrCall.Wait s2
                       ⟨2 * Second, opts.WaitTimeout.getD DefaultTimeout⟩],
              Or.inr ⟨rfl, rfl, rfl⟩, ?_⟩
            cases prev with
            | none =>
              refine Or.inl ⟨rfl, ?_⟩
              simp [Reconciler.Reconcile, hst, h1, hw1, h2, hsw, hw2,
                finishReconcile]
            | some p =>
              cases hrm : Reconciler.removeItems env p
                  ⟨s1.map toInventoryItem ++ s2.map toInventoryItem⟩
                  ⟨some (opts.WaitTimeout.getD DefaultTimeout), false⟩ with
              | mk perr pcalls =>
                refine Or.inr ⟨p, perr, pcalls, rfl, ?_, ?_⟩
                · exact hsw ▸ hrm
                · cases perr with
                  | none =>
                    refine Or.inl ⟨rfl, ?_⟩
                    simp [Reconciler.Reconcile, hst, h1, hw1, h2, hsw, hw2,
                      finishReconcile, hrm]
                  | some e =>
                    refine Or.inr ⟨e, rfl, ?_⟩
                    simp [Reconciler.Reconcile, hst, h1, hw1, h2, hsw, hw2,
                      finishReconcile, hrm]

theorem removeItems_call_mem (env : Env) (p inv : Inventory) (opts : ApplyOpts)
    (c : MgrCall) (hc : c ∈ (Reconciler.removeItems env p inv opts).2) :
    c = MgrCall.DeleteAll (p.ItemsToRemove inv) DeletePropagationForeground ∨
    (opts.SkipWait = false ∧
      c = MgrCall.WaitForTermination (p.ItemsToRemove inv)
            ⟨2 * Second, opts.WaitTimeout.getD DefaultTimeout⟩) := by
  rcases removeItems_shape env p inv opts with ⟨heq, -⟩ | ⟨-, hcase⟩
  · rw [heq] at hc
    simp at hc
  · rcases hcase with ⟨e, -, heq⟩ | ⟨-, ⟨hsw, heq⟩ | ⟨hsw, heq⟩⟩
    · rw [heq] at hc
      simp at hc
      exact Or.inl hc
    · rw [heq] at hc
      simp at hc
      exact Or.inl hc
    · rw [heq] at hc
      simp at hc
      rcases hc with h | h
      · exact Or.inl h
      · exact Or.inr ⟨hsw, h⟩

/-- C4: with SkipWait set, a reconcile call issues no termination wait and its
only convergence wait is the stage-one wait with the fixed 2s/30s options;
and for no input is the stage-one wait skipped: whenever the stage-one apply
succeeds (for any options), the stage-one wait call is issued. -/
theorem C4_skipWait_skips_only_later_waits :
    (∀ env opts prev s1 s2, opts.SkipWait = true →
      getResourceStages env = .ok (s1, s2) →
      (∀ c ∈ (Reconciler.Reconcile env opts prev).calls,
        c.isWaitForTermination = false) ∧
      (∀ items w,
        MgrCall.Wait items w ∈ (Reconciler.Reconcile env opts prev).calls →
        items = s1 ∧ w = ⟨2 * Second, 30 * Second⟩)) ∧
    (∀ env opts prev e, getResourceStages env = .error e →
      (Reconciler.Reconcile env opts prev).calls = []) ∧
    (∀ env opts prev s1 s2, getResourceStages env = .ok (s1, s2) →
      env.mgr.ApplyAllErr s1 = none →
      MgrCall.Wait s1 ⟨2 * Second, 30 * Second⟩ ∈
        (Reconciler.Reconcile env opts prev).calls) := by
  refine ⟨?_, ?_, ?_⟩
  · intro env opts prev s1 s2 hsw hst
    rcases reconcile_master env opts prev s1 s2 hst with
      ⟨e, -, hr⟩ | ⟨-, -, hr⟩ | ⟨-, -, e, -, hr⟩ |
      ⟨-, -, -, hskf, -, hr⟩ |
      ⟨-, -, -, pre, hpre, hfin⟩
    · constructor
      · intro c hc
        rw [hr] at hc
        simp at hc
        subst hc
        rfl
      · intro items w hmem
        rw [hr] at hmem
        simp at hmem
    · constructor
      · intro c hc
        rw [hr] at hc
        simp at hc
        rcases hc with h | h <;> subst h <;> rfl
      · intro items w hmem
        rw [hr] at hmem
        simp at hmem
        exact hmem
    · constructor
      · intro c hc
        rw [hr] at hc
        simp at hc
        rcases hc with h | h | h <;> subst h <;> rfl
      · intro items w hmem
        rw [hr] at hmem
        simp at hmem
        exact hmem
    · rw [hsw] at hskf
      exact absurd hskf (by simp)
    · have hpre' : pre =
        [MgrCall.ApplyAll s1, MgrCall.Wait s1 ⟨2 * Second, 30 * Second⟩,
         MgrCall.ApplyAll s2] := by
        rcases hpre with ⟨-, h⟩ | ⟨hskf, -, -⟩
        · exact h
        · rw [hsw] at hskf
          exact absurd hskf (by simp)
      rcases hfin with ⟨-, hr⟩ | ⟨p, perr, pcalls, -, hrm, hfin2⟩
      · constructor
        · intro c hc
          rw [hr] at hc
          rw [hpre'] at hc
          simp at hc
          rcases hc with h | h | h <;> subst h <;> rfl
        · intro items w hmem
          rw [hr] at hmem
          rw [hpre'] at hmem
          simp at hmem
          exact hmem
      · have hcalls : (Reconciler.Reconcile env opts prev).calls = pre ++ pcalls := by
          rcases hfin2 with ⟨-, hr⟩ | ⟨e, -, hr⟩ <;> rw [hr]
        have hpc : ∀ c ∈ pcalls,
            c = MgrCall.DeleteAll
                  (p.ItemsToRemove
                    ⟨s1.map toInventoryItem ++ s2.map toInventoryItem⟩)
                  DeletePropagationForeground := by
          intro c hcp
          have hcp' : c ∈ (Reconciler.removeItems env p
              ⟨s1.map toInventoryItem ++ s2.map toInventoryItem⟩
              { opts with
                WaitTimeout := some (opts.WaitTimeout.getD DefaultTimeout) }).2 := by
            rw [hrm]
            exact hcp
          rcases removeItems_call_mem _ _ _ _ _ hcp' with h | ⟨hskf, -⟩
          · exact h
          · simp [hsw] at hskf
        constructor
        · intro c hc
          rw [hcalls] at hc
          rcases List.mem_append.mp hc with h | h
          · rw [hpre'] at h
            simp at h
            rcases h with h | h | h <;> subst h <;> rfl
          · rw [hpc c h]
            rfl
        · intro items w hmem
          rw [hcalls] at hmem
          rcases List.mem_append.mp hmem with h | h
          · rw [hpre'] at h
            simp at h
            exact h
          · have := hpc _ h
            simp at this
  · intro env opts prev e herr
    simp [Reconciler.Reconcile, herr]
  · intro env opts prev s1 s2 hst h1
    rcases reconcile_master env opts prev s1 s2 hst with
      ⟨e, he, hr⟩ | ⟨-, -, hr⟩ | ⟨-, -, e, -, hr⟩ |
      ⟨-, -, -, -, -, hr⟩ |
      ⟨-, -, -, pre, hpre, hfin⟩
    · rw [h1] at he
      exact absurd he (by simp)
    · rw [hr]
      simp
    · rw [hr]
      simp
    · rw [hr]
      simp
    · have hprew : MgrCall.Wait s1 ⟨2 * Second, 30 * Second⟩ ∈ pre := by
        rcases hpre with ⟨-, h⟩ | ⟨-, -, h⟩ <;> rw [h] <;> simp
      rcases hfin with ⟨-, hr⟩ | ⟨p, perr, pcalls, -, -, hfin2⟩
      · rw [hr]
        exact hprew
      · rcases hfin2 with ⟨-, hr⟩ | ⟨e, -, hr⟩ <;> rw [hr] <;>
          exact List.mem_append_left _ hprew

/-- Witness for C4 at a concrete reconcile call: with SkipWait set and a
declaration decoding to a namespace and a config map, the stage-one wait call
is issued, and the skip-wait clause is exercised. -/
theorem C4_skipWait_skips_only_later_waits_witness :
    MgrCall.Wait [nsObj] ⟨2 * Second, 30 * Second⟩ ∈
      (Reconciler.Reconcile (envOf [nsObj, cmX]) ⟨none, true⟩ none).calls ∧
    (MgrCall.ApplyAll [nsObj]).isWaitForTermination = false := by
  constructor
  · exact C4_skipWait_skips_only_later_waits.2.2 (envOf [nsObj, cmX])
      ⟨none, true⟩ none [nsObj] [cmX] rfl rfl
  · exact (C4_skipWait_skips_only_later_waits.1 (envOf [nsObj, cmX])
      ⟨none, true⟩ none [nsObj] [cmX] rfl rfl).1
      (MgrCall.ApplyAll [nsObj]) (by decide)

/-- The concatenation, in call order, of the resource lists handed to
`ApplyAll`: the combined apply sequence of a trace. -/
def appliedSeq : List MgrCall → List Unstructured
  | [] => []
  | (MgrCall.ApplyAll objs) :: rest => objs ++ appliedSeq rest
  | (MgrCall.Wait _ _) :: rest => appliedSeq rest
  | (MgrCall.DeleteAll _ _) :: rest => appliedSeq rest
  | (MgrCall.WaitForTermination _ _) :: rest => appliedSeq rest

theorem appliedSeq_append (xs ys : List MgrCall) :
    appliedSeq (xs ++ ys) = appliedSeq xs ++ appliedSeq ys := by
  induction xs with
  | nil => rfl
  | cons c rest ih => cases c <;> simp [appliedSeq, ih]

theorem appliedSeq_removeItems (env : Env) (p inv : Inventory)
    (opts : ApplyOpts) :
    appliedSeq (Reconciler.removeItems env p inv opts).2 = [] := by
  rcases removeItems_shape env p inv opts with ⟨heq, -⟩ |
    ⟨-, ⟨e, -, heq⟩ | ⟨-, ⟨-, heq⟩ | ⟨-, heq⟩⟩⟩ <;>
      rw [heq] <;> simp [appliedSeq]

/-- C5: the classifier partitions the decoded (normalized) resource list into
the two stages — stage one exactly the cluster-scoped definitional resources,
stage two the rest, each an order-preserving sublist of the input — and in the
combined apply sequence all stage-one resources precede all stage-two
resources. -/
theorem C5_classifier_partition :
    (∀ objs : List Unstructured,
      stageLoop objs =
        (objs.filter IsClusterDefinition,
         objs.filter (fun o => !IsClusterDefinition o))) ∧
    (∀ objs : List Unstructured,
      (stageLoop objs).1.Sublist objs ∧ (stageLoop objs).2.Sublist objs) ∧
    (∀ objs : List Unstructured, ∀ o : Unstructured,
      (o ∈ (stageLoop objs).1 ↔ o ∈ objs ∧ IsClusterDefinition o = true) ∧
      (o ∈ (stageLoop objs).2 ↔ o ∈ objs ∧ IsClusterDefinition o = false)) ∧
    (∀ env opts prev s1 s2, getResourceStages env = .ok (s1, s2) →
      env.mgr.ApplyAllErr s1 = none →
      env.mgr.WaitOk s1 ⟨2 * Second, 30 * Second⟩ = true →
      appliedSeq (Reconciler.Reconcile env opts prev).calls = s1 ++ s2) := by
  refine ⟨stageLoop_eq_filter, ?_, ?_, ?_⟩
  · intro objs
    rw [stageLoop_eq_filter]
    exact ⟨List.filter_sublist objs, List.filter_sublist objs⟩
  · intro objs o
    rw [stageLoop_eq_filter]
    constructor
    · simp [List.mem_filter]
    · simp [List.mem_filter]
  · intro env opts prev s1 s2 hst h1 hw1
    rcases reconcile_master env opts prev s1 s2 hst with
      ⟨e, he, -⟩ | ⟨-, hw, -⟩ | ⟨-, -, e, -, hr⟩ |
      ⟨-, -, -, -, -, hr⟩ |
      ⟨-, -, -, pre, hpre, hfin⟩
    · rw [h1] at he
      exact absurd he (by simp)
    · rw [hw1] at hw
      exact absurd hw (by simp)
    · rw [hr]
      simp [appliedSeq]
    · rw [hr]
      simp [appliedSeq]
    · have hpreseq : appliedSeq pre = s1 ++ s2 := by
        rcases hpre with ⟨-, h⟩ | ⟨-, -, h⟩ <;> rw [h] <;> simp [appliedSeq]
      rcases hfin with ⟨-, hr⟩ | ⟨p, perr, pcalls, -, hrm, hfin2⟩
      · rw [hr]
        exact hpreseq
      · have hpc : appliedSeq pcalls = [] := by
          have := appliedSeq_removeItems env p
            ⟨s1.map toInventoryItem ++ s2.map toInventoryItem⟩
            { opts with
              WaitTimeout := some (opts.WaitTimeout.getD DefaultTimeout) }
          rw [hrm] at this
          exact this
        rcases hfin2 with ⟨-, hr⟩ | ⟨e, -, hr⟩ <;> rw [hr] <;>
          simp [appliedSeq_append, hpreseq, hpc]

/-- Witness for C5 at a concrete reconcile call: a declaration with the
namespace declared after the config map still applies the namespace stage
before the config-map stage. -/
theorem C5_classifier_partition_witness :
    stageLoop [cmX, nsObj] = ([nsObj], [cmX]) ∧
    appliedSeq
      (Reconciler.Reconcile (envOf [cmX, nsObj]) ⟨none, false⟩ none).calls =
      [nsObj] ++ [cmX] := by
  constructor
  · have h := C5_classifier_partition.1 [cmX, nsObj]
    simpa using h
  · exact C5_classifier_partition.2.2.2 (envOf [cmX, nsObj]) ⟨none, false⟩
      none [nsObj] [cmX] rfl rfl rfl

/-- C7: pruning happens only when a previous inventory is supplied — with a
nil previous inventory no `DeleteAll` is ever issued; an empty items-to-remove
computation makes `removeItems` a silent no-op (no error, no calls); and
concretely, reconciling {X} then {X, Y} issues zero delete calls and returns
the inventory {X, Y}. -/
theorem C7_prune_only_with_previous :
    (∀ env opts, ∀ c ∈ (Reconciler.Reconcile env opts none).calls,
      c.isDeleteAll = false) ∧
    (∀ env : Env, ∀ p inv : Inventory, ∀ opts : ApplyOpts,
      p.ItemsToRemove inv = [] →
      Reconciler.removeItems env p inv opts = (none, [])) ∧
    (Reconciler.Reconcile (envOf [cmX, cmY]) ⟨none, false⟩
        (some (Reconciler.Apply (envOf [cmX]) ⟨none, false⟩).inventory) =
      ⟨⟨[toInventoryItem cmX, toInventoryItem cmY]⟩, none,
        [MgrCall.ApplyAll [], MgrCall.Wait [] ⟨2 * Second, 30 * Second⟩,
         MgrCall.ApplyAll [cmX, cmY],
         MgrCall.Wait [cmX, cmY] ⟨2 * Second, DefaultTimeout⟩]⟩) := by
  refine ⟨?_, ?_, ?_⟩
  · intro env opts c hc
    have h := reconcile_none_hasNoDeleteAll env opts
    rw [List.all_eq_true] at h
    have hb := h c hc
    simpa using hb
  · intro env p inv opts hempty
    simp [Reconciler.removeItems, hempty]
  · rfl

/-- Witness for C7 at concrete inputs: a no-op prune on identical inventories
and the no-delete guarantee exercised on a concrete first-apply trace. -/
theorem C7_prune_only_with_previous_witness :
    Reconciler.removeItems (envOf []) invX invX ⟨none, false⟩ = (none, []) ∧
    (MgrCall.ApplyAll ([] : List Unstructured)).isDeleteAll = false := by
  constructor
  · exact C7_prune_only_with_previous.2.1 (envOf []) invX invX ⟨none, false⟩ rfl
  · exact C7_prune_only_with_previous.1 (envOf [cmX]) ⟨none, false⟩
      (MgrCall.ApplyAll []) (by decide)

/-- C8: the named default is 5 minutes; with no caller timeout the stage-two
convergence wait and every termination wait use `DefaultTimeout`; the
stage-one wait always uses the fixed 2-second interval and 30-second ceiling,
whatever the caller's options. -/
theorem C8_timeout_defaults :
    DefaultTimeout = 5 * Minute ∧
    (∀ env opts prev s1 s2, opts.WaitTimeout = none → opts.SkipWait = false →
      getResourceStages env = .ok (s1, s2) →
      env.mgr.ApplyAllErr s1 = none →
      env.mgr.WaitOk s1 ⟨2 * Second, 30 * Second⟩ = true →
      env.mgr.ApplyAllErr s2 = none →
      ∃ rest, (Reconciler.Reconcile env opts prev).calls =
        MgrCall.ApplyAll s1 ::
        MgrCall.Wait s1 ⟨2 * Second, 30 * Second⟩ ::
        MgrCall.ApplyAll s2 ::
        MgrCall.Wait s2 ⟨2 * Second, DefaultTimeout⟩ :: rest) ∧
    (∀ env : Env, ∀ items : List Unstructured,
      env.mgr.DeleteAllErr items = none →
      Reconciler.delete env items ⟨none, false⟩ =
        (none, [MgrCall.DeleteAll items DeletePropagationForeground,
                MgrCall.WaitForTermination items
                  ⟨2 * Second, DefaultTimeout⟩])) ∧
    (∀ env opts prev items w, opts.WaitTimeout = none →
      MgrCall.WaitForTermination items w ∈
        (Reconciler.Reconcile env opts prev).calls →
      w = ⟨2 * Second, DefaultTimeout⟩) ∧
    (∀ env opts prev s1 s2, getResourceStages env = .ok (s1, s2) →
      env.mgr.ApplyAllErr s1 = none →
      ∃ rest, (Reconciler.Reconcile env opts prev).calls =
        MgrCall.ApplyAll s1 ::
        MgrCall.Wait s1 ⟨2 * Second, 30 * Second⟩ :: rest) := by
  refine ⟨rfl, ?_, ?_, ?_, ?_⟩
  · intro env opts prev s1 s2 hWT hsw hst h1 hw1 h2
    rcases reconcile_master env opts prev s1 s2 hst with
      ⟨e, he, -⟩ | ⟨-, hw, -⟩ | ⟨-, -, e, he2, -⟩ |
      ⟨-, -, -, -, -, hr⟩ |
      ⟨-, -, -, pre, hpre, hfin⟩
    · rw [h1] at he
      exact absurd he (by simp)
    · rw [hw1] at hw
      exact absurd hw (by simp)
    · rw [h2] at he2
      exact absurd he2 (by simp)
    · refine ⟨[], ?_⟩
      rw [hr]
      simp [hWT]
    · have hpre' : pre =
        [MgrCall.ApplyAll s1, MgrCall.Wait s1 ⟨2 * Second, 30 * Second⟩,
         MgrCall.ApplyAll s2,
         MgrCall.Wait s2 ⟨2 * Second, DefaultTimeout⟩] := by
        rcases hpre with ⟨hskt, -⟩ | ⟨-, -, h⟩
        · rw [hsw] at hskt
          exact absurd hskt (by simp)
        · simp [h, hWT]
      rcases hfin with ⟨-, hr⟩ | ⟨p, perr, pcalls, -, -, hfin2⟩
      · exact ⟨[], by rw [hr, hpre']⟩
      · rcases hfin2 with ⟨-, hr⟩ | ⟨e, -, hr⟩ <;>
          exact ⟨pcalls, by rw [hr, hpre']; simp⟩
  · intro env items hdel
    simp [Reconciler.delete, hdel]
  · intro env opts prev items w hWT hmem
    cases hst : getResourceStages env with
    | error e =>
      rw [show (Reconciler.Reconcile env opts prev).calls = [] by
        simp [Reconciler.Reconcile, hst]] at hmem
      simp at hmem
    | ok s =>
      rcases s with ⟨s1, s2⟩
      rcases reconcile_master env opts prev s1 s2 hst with
        ⟨e, -, hr⟩ | ⟨-, -, hr⟩ | ⟨-, -, e, -, hr⟩ |
        ⟨-, -, -, -, -, hr⟩ |
        ⟨-, -, -, pre, hpre, hfin⟩
      · rw [hr] at hmem
        simp at hmem
      · rw [hr] at hmem
        simp at hmem
      · rw [hr] at hmem
        simp at hmem
      · rw [hr] at hmem
        simp at hmem
      · have hprenw : MgrCall.WaitForTermination items w ∉ pre := by
          rcases hpre with ⟨-, h⟩ | ⟨-, -, h⟩ <;> rw [h] <;> simp
        rcases hfin with ⟨-, hr⟩ | ⟨p, perr, pcalls, -, hrm, hfin2⟩
        · rw [hr] at hmem
          exact absurd hmem hprenw
        · have hcalls : (Reconciler.Reconcile env opts prev).calls =
              pre ++ pcalls := by
            rcases hfin2 with ⟨-, hr⟩ | ⟨e, -, hr⟩ <;> rw [hr]
          rw [hcalls] at hmem
          rcases List.mem_append.mp hmem with h | h
          · exact absurd h hprenw
          · have h' : MgrCall.WaitForTermination items w ∈
                (Reconciler.removeItems env p
                  ⟨s1.map toInventoryItem ++ s2.map toInventoryItem⟩
                  { opts with
                    WaitTimeout := some (opts.WaitTimeout.getD DefaultTimeout) }).2 := by
              rw [hrm]
              exact h
            rcases removeItems_call_mem _ _ _ _ _ h' with hd | ⟨-, hd⟩
            · simp at hd
            · have hw' := hd
              simp only [MgrCall.WaitForTermination.injEq] at hw'
              rw [hw'.2]
              simp [hWT]
  · intro env opts prev s1 s2 hst h1
    rcases reconcile_master env opts prev s1 s2 hst with
      ⟨e, he, -⟩ | ⟨-, -, hr⟩ | ⟨-, -, e, -, hr⟩ |
      ⟨-, -, -, -, -, hr⟩ |
      ⟨-, -, -, pre, hpre, hfin⟩
    · rw [h1] at he
      exact absurd he (by simp)
    · exact ⟨[], by rw [hr]⟩
    · exact ⟨[MgrCall.ApplyAll s2], by rw [hr]⟩
    · exact ⟨[MgrCall.ApplyAll s2,
        MgrCall.Wait s2 ⟨2 * Second, opts.WaitTimeout.getD DefaultTimeout⟩],
        by rw [hr]⟩
    · rcases hfin with ⟨-, hr⟩ | ⟨p, perr, pcalls, -, -, hfin2⟩
      · rcases hpre with ⟨-, hp⟩ | ⟨-, -, hp⟩
        · exact ⟨[MgrCall.ApplyAll s2], by rw [hr, hp]⟩
        · exact ⟨[MgrCall.ApplyAll s2,
            MgrCall.Wait s2 ⟨2 * Second, opts.WaitTimeout.getD DefaultTimeout⟩],
            by rw [hr, hp]⟩
      · have hcalls : (Reconciler.Reconcile env opts prev).calls =
            pre ++ pcalls := by
          rcases hfin2 with ⟨-, hr⟩ | ⟨e, -, hr⟩ <;> rw [hr]
        rcases hpre with ⟨-, hp⟩ | ⟨-, -, hp⟩
        · exact ⟨MgrCall.ApplyAll s2 :: pcalls, by rw [hcalls, hp]; simp⟩
        · exact ⟨MgrCall.ApplyAll s2 ::
            MgrCall.Wait s2
              ⟨2 * Second, opts.WaitTimeout.getD DefaultTimeout⟩ :: pcalls,
            by rw [hcalls, hp]; simp⟩

/-- Witness for C8 at concrete inputs: a delete with no caller-supplied
timeout issues its termination wait with the 5-minute default. -/
theorem C8_timeout_defaults_witness :
    Reconciler.delete (envOf []) [cmY] ⟨none, false⟩ =
      (none, [MgrCall.DeleteAll [cmY] DeletePropagationForeground,
              MgrCall.WaitForTermination [cmY]
                ⟨2 * Second, DefaultTimeout⟩]) := by
  exact C8_timeout_defaults.2.2.1 (envOf []) [cmY] rfl

/-- Fixture: an environment whose declaration text fails to decode. -/
def envDecodeErr : Env :=
  { readObjects := .error "bad yaml"
    normalizeObj := id
    normalizeErr := fun _ => none
    mgr := mgrAllOk }

/-- C9: a decode failure fails the whole reconcile with a (wrapped) decode
error before any resource-manager call; and whenever reconcile returns an
error — from any phase — the returned inventory is the empty inventory. -/
theorem C9_failure_returns_empty_inventory :
    (∀ env opts prev e, env.readObjects = .error e →
      Reconciler.Reconcile env opts prev =
        ⟨⟨[]⟩, some ("error getting resource stages: " ++
          ("error decoding yaml to unstructured: " ++
            ("error decoding yaml to unstructured: " ++ e))), []⟩) ∧
    (∀ env opts prev, (Reconciler.Reconcile env opts prev).err ≠ none →
      (Reconciler.Reconcile env opts prev).inventory = ⟨[]⟩) := by
  constructor
  · intro env opts prev e herr
    simp [Reconciler.Reconcile, getResourceStages, GetObjects, herr]
  · intro env opts prev herr
    cases hst : getResourceStages env with
    | error e =>
      simp [Reconciler.Reconcile, hst]
    | ok s =>
      rcases s with ⟨s1, s2⟩
      rcases reconcile_master env opts prev s1 s2 hst with
        ⟨e, -, hr⟩ | ⟨-, -, hr⟩ | ⟨-, -, e, -, hr⟩ |
        ⟨-, -, -, -, -, hr⟩ |
        ⟨-, -, -, pre, -, hfin⟩
      · rw [hr]
      · rw [hr]
      · rw [hr]
      · rw [hr]
      · rcases hfin with ⟨-, hr⟩ | ⟨p, perr, pcalls, -, -, hfin2⟩
        · rw [hr] at herr
          simp at herr
        · rcases hfin2 with ⟨-, hr⟩ | ⟨e, -, hr⟩
          · rw [hr] at herr
            simp at herr
          · rw [hr]

/-- Witness for C9 at a concrete failing decode: the reconcile fails with the
wrapped decode error, issues no calls, and returns the empty inventory. -/
theorem C9_failure_returns_empty_inventory_witness :
    Reconciler.Reconcile envDecodeErr ⟨none, false⟩ none =
      ⟨⟨[]⟩, some ("error getting resource stages: " ++
        ("error decoding yaml to unstructured: " ++
          ("error decoding yaml to unstructured: " ++ "bad yaml"))), []⟩ ∧
    (Reconciler.Reconcile envDecodeErr ⟨none, false⟩ none).inventory = ⟨[]⟩ := by
  constructor
  · exact C9_failure_returns_empty_inventory.1 envDecodeErr ⟨none, false⟩ none
      "bad yaml" rfl
  · exact C9_failure_returns_empty_inventory.2 envDecodeErr ⟨none, false⟩ none
      (by decide)

/-- Counterexample to C6 as stated: a declaration that decodes to the same
config map twice reconciles successfully, yet the constructed inventory holds
two items with the same (group, kind, namespace, name) identity. -/
theorem C6_duplicate_identities_counterexample :
    (Reconciler.Reconcile (envOf [cmX, cmX]) ⟨none, false⟩ none).err = none ∧
    ¬ ((Reconciler.Reconcile (envOf [cmX, cmX]) ⟨none, false⟩
        none).inventory.Items.map InventoryItem.ID).Nodup := by
  constructor
  · rfl
  · decide

/-- C6 amended: when the declared (normalized) resources have pairwise
distinct identities, the inventory a successful reconcile returns has
pairwise distinct identities, and its items are exactly the stage-one items
followed by the stage-two items, each in declaration order. -/
theorem C6_inventory_invariants :
    ∀ env opts prev (objs : List Unstructured),
      env.readObjects = .ok objs →
      env.normalizeErr objs = none →
      ((objs.map env.normalizeObj).map
        (fun o => (toInventoryItem o).ID)).Nodup →
      (Reconciler.Reconcile env opts prev).err = none →
      (Reconciler.Reconcile env opts prev).inventory.Items =
        ((objs.map env.normalizeObj).filter
          IsClusterDefinition).map toInventoryItem ++
        ((objs.map env.normalizeObj).filter
          (fun o => !IsClusterDefinition o)).map toInventoryItem ∧
      ((Reconciler.Reconcile env opts prev).inventory.Items.map
        InventoryItem.ID).Nodup := by
  intro env opts prev objs hread hnorm hnodup herr
  have hst : getResourceStages env = .ok
      ((objs.map env.normalizeObj).filter IsClusterDefinition,
       (objs.map env.normalizeObj).filter
         (fun o => !IsClusterDefinition o)) := by
    simp [getResourceStages, GetObjects, hread, hnorm, stageLoop_eq_filter]
  have hperm : List.Perm
      ((objs.map env.normalizeObj).filter IsClusterDefinition ++
        (objs.map env.normalizeObj).filter
          (fun o => !IsClusterDefinition o)) (objs.map env.normalizeObj) :=
    List.filter_append_perm _ _
  have hkey :
      ((((objs.map env.normalizeObj).filter
          IsClusterDefinition).map toInventoryItem ++
        ((objs.map env.normalizeObj).filter
          (fun o => !IsClusterDefinition o)).map toInventoryItem).map
        InventoryItem.ID).Nodup := by
    have hperm2 : List.Perm
        (((objs.map env.normalizeObj).filter IsClusterDefinition ++
          (objs.map env.normalizeObj).filter
            (fun o => !IsClusterDefinition o)).map
          (fun o => (toInventoryItem o).ID))
        ((objs.map env.normalizeObj).map
          (fun o => (toInventoryItem o).ID)) :=
      hperm.map _
    have h2 := hperm2.symm.nodup hnodup
    simpa [List.map_append, List.map_map, Function.comp] using h2
  rcases reconcile_master env opts prev _ _ hst with
    ⟨e, -, hr⟩ | ⟨-, -, hr⟩ | ⟨-, -, e, -, hr⟩ |
    ⟨-, -, -, -, -, hr⟩ |
    ⟨-, -, -, pre, -, hfin⟩
  · rw [hr] at herr
    simp at herr
  · rw [hr] at herr
    simp at herr
  · rw [hr] at herr
    simp at herr
  · rw [hr] at herr
    simp at herr
  · rcases hfin with ⟨-, hr⟩ | ⟨p, perr, pcalls, -, -, hfin2⟩
    · rw [hr]
      exact ⟨rfl, hkey⟩
    · rcases hfin2 with ⟨-, hr⟩ | ⟨e, -, hr⟩
      · rw [hr]
        exact ⟨rfl, hkey⟩
      · rw [hr] at herr
        simp at herr

/-- Witness for C6 (amended) at a concrete declaration with distinct
identities: the returned inventory is the namespace item followed by the
config-map item, with no duplicate identity. -/
theorem C6_inventory_invariants_witness :
    (Reconciler.Reconcile (envOf [nsObj, cmX]) ⟨none, false⟩
        none).inventory.Items =
      (([nsObj, cmX].map (envOf [nsObj, cmX]).normalizeObj).filter
        IsClusterDefinition).map toInventoryItem ++
      (([nsObj, cmX].map (envOf [nsObj, cmX]).normalizeObj).filter
        (fun o => !IsClusterDefinition o)).map toInventoryItem ∧
    ((Reconciler.Reconcile (envOf [nsObj, cmX]) ⟨none, false⟩
        none).inventory.Items.map InventoryItem.ID).Nodup := by
  exact C6_inventory_invariants (envOf [nsObj, cmX]) ⟨none, false⟩ none
    [nsObj, cmX] rfl rfl (by decide) rfl
